import Mathlib

/-! pv.c : page-image cache, virtual scroll, zoom and paint planning

A shallow embedding of the viewer core of `src/pv.c`.

Conventions of the embedding
* C `int` is `Int`.  The conversion of a floating value to `int`
  (`float_to_int`) truncates toward zero and has the range of a 32-bit `int`:
  outside it the result is `INT_MIN`.
* The `float` fields of the file hold numbers, as exact rationals (`ℚ`).
  In `draw_cb`, where the pixel painted depends on it, the rounding of each
  floating operation to single precision is explicit, as a parameter `fl` for
  which every statement holds.  In `scroll_v`, `scroll_h` and `resize` sums,
  products and quotients are the exact ones.
* A `float` argument that may be NaN is a `float_t`; `set_file_position_float`
  and `set_file_scale_float` give what the two clamping setters store for such
  an argument, and agree with `set_file_position` and `set_file_scale` on
  numbers.
* A `GList *` of `image_t *` is a `List image_t`, most recently used first.
  The pixel buffer and the cairo surface of an image are not modelled.
* The rendering backend (mupdf) is a parameter `bk : backend_t` giving the
  width and height of the rounded bounding box of a page at a scale and a
  rotation.
* `while (1) { ... }` is `while_1`, the iteration of the loop body with an
  explicit bound on the number of iterations.
-/

namespace Pv

/-! ## Constants -/

def SCROLL_STEP : Int := 80
def RESIZE_MIN : ℚ := 1 / 10
def RESIZE_MAX : ℚ := 10
def CACHE_LENGTH : Int := 10
def CLEARANCE : Int := 2

/-! ## Data model -/

/-- A rendered page: `image_t` without its pixel buffer and surface. -/
structure image_t where
  page : Int
  scale : ℚ
  rotation : ℚ
  width : Int
  height : Int
deriving DecidableEq

/-- The viewer state `file_info_t` (file name and mupdf handles left out). -/
structure file_info_t where
  pages_number : Int
  page : Int
  line : ℚ
  bias : ℚ
  scale : ℚ
  rotation : ℚ
  cache : List image_t
  cache_length : Int
deriving DecidableEq

/-- Width and height of the rounded bounding box of `page` rendered at
`scale` and `rotation` (`fz_bound_page` .. `fz_round_rect`). -/
abbrev backend_t := Int → ℚ → ℚ → Int × Int

/-- The least and the greatest value of a C `int` (32 bits). -/
def INT_MIN : Int := -2147483648
def INT_MAX : Int := 2147483647

/-- Truncation toward zero. -/
def trunc (x : ℚ) : Int := if 0 ≤ x then ⌊x⌋ else ⌈x⌉

/-- Conversion of a floating value to `int`: truncation toward zero when the
truncated value is an `int`.  Otherwise C leaves the result undefined; the
model takes `INT_MIN`, the value that the conversion instruction of x86
delivers. -/
def float_to_int (x : ℚ) : Int :=
  if INT_MIN ≤ trunc x ∧ trunc x ≤ INT_MAX then trunc x else INT_MIN

/-- The loop `while (1) body`: `body` either continues with a new loop state
(`Sum.inl`) or leaves the loop with a result (`Sum.inr`).  The first argument
bounds the number of iterations; `none` means the bound was reached. -/
def while_1 {σ ρ : Type} (body : σ → Sum σ ρ) : Nat → σ → Option ρ
  | 0, _ => none
  | n + 1, s =>
    match body s with
    | Sum.inl s' => while_1 body n s'
    | Sum.inr r => some r

/-- The loop states at the start of each iteration that `while_1` executes. -/
def while_1_trace {σ ρ : Type} (body : σ → Sum σ ρ) : Nat → σ → List σ
  | 0, _ => []
  | n + 1, s =>
    match body s with
    | Sum.inl s' => s :: while_1_trace body n s'
    | Sum.inr _ => [s]

/-! ## Opening a file and the setters -/

/-- State built by `open_file` for a document of `pages_number` pages. -/
def open_file (pages_number : Int) : file_info_t :=
  { pages_number := pages_number
    page := 0
    line := 0
    bias := 0
    scale := 1
    rotation := 0
    cache := []
    cache_length := 0 }

def set_file_position (file : file_info_t) (page : Int) (line : ℚ) : file_info_t :=
  let file1 : file_info_t :=
    if page < 0 then { file with page := 0 }
    else if page ≥ file.pages_number then { file with page := file.pages_number - 1 }
    else { file with page := page }
  if line < 0 then { file1 with line := 0 }
  else if line > 1 then { file1 with line := 1 }
  else { file1 with line := line }

def set_file_bias (file : file_info_t) (bias : ℚ) : file_info_t :=
  if bias ≥ ((Int.tdiv (-SCROLL_STEP) 2 : Int) : ℚ) ∧ bias ≤ ((Int.tdiv SCROLL_STEP 2 : Int) : ℚ) then
    { file with bias := 0 }
  else
    { file with bias := bias }

def set_file_scale (file : file_info_t) (scale : ℚ) : file_info_t :=
  if scale < RESIZE_MIN then { file with scale := RESIZE_MIN }
  else if scale > RESIZE_MAX then { file with scale := RESIZE_MAX }
  else { file with scale := scale }

def set_rotation (file : file_info_t) (rotation : ℚ) : file_info_t :=
  { file with rotation := rotation }

/-- A `float` argument as `strtof` can deliver it: not-a-number, or a number. -/
inductive float_t where
  | nan
  | num (q : ℚ)
deriving DecidableEq

/-- The comparison `a < b` of C on floats: false when an operand is NaN. -/
def float_lt : float_t → float_t → Bool
  | float_t.num a, float_t.num b => decide (a < b)
  | _, _ => false

/-- The comparison `a > b` of C on floats: false when an operand is NaN. -/
def float_gt (a b : float_t) : Bool := float_lt b a

/-- The comparison `a <= b` of C on floats: false when an operand is NaN. -/
def float_le : float_t → float_t → Bool
  | float_t.num a, float_t.num b => decide (a ≤ b)
  | _, _ => false

/-- The value that `set_file_position` stores in `file->line` for an argument
`line` that may be NaN. -/
def set_file_position_float (line : float_t) : float_t :=
  if float_lt line (float_t.num 0) then float_t.num 0
  else if float_gt line (float_t.num 1) then float_t.num 1
  else line

/-- The value that `set_file_scale` stores in `file->scale` for an argument
`scale` that may be NaN. -/
def set_file_scale_float (scale : float_t) : float_t :=
  if float_lt scale (float_t.num RESIZE_MIN) then float_t.num RESIZE_MIN
  else if float_gt scale (float_t.num RESIZE_MAX) then float_t.num RESIZE_MAX
  else scale

/-- The test `lo <= x && x <= hi` on a float that may be NaN. -/
def float_in_range (lo hi : ℚ) (x : float_t) : Bool :=
  float_le (float_t.num lo) x && float_le x (float_t.num hi)

/-! ## The page cache -/

def compare_page (a : image_t) (b : Int) : Int :=
  if a.page < b then -1
  else if a.page = b then 0
  else 1

/-- The first node of the list whose image compares equal to `page`
(`g_list_find_custom` with `compare_page`): its position and its data. -/
def g_list_find_custom : List image_t → Int → Option (Nat × image_t)
  | [], _ => none
  | a :: l, page =>
    if compare_page a page = 0 then some (0, a)
    else (g_list_find_custom l page).map (fun r => (r.1 + 1, r.2))

/-- The part of `render_page` after the cache lookup: the image record with
the rendering parameters of the file and the size given by the backend. -/
def rasterize (bk : backend_t) (file : file_info_t) (image : image_t) (page : Int) : image_t :=
  { image with
    scale := file.scale
    rotation := file.rotation
    width := (bk page file.scale file.rotation).1
    height := (bk page file.scale file.rotation).2 }

/-- The function `render_page`: the new state of the file and the image returned. -/
def render_page (bk : backend_t) (file : file_info_t) (page : Int) : file_info_t × image_t :=
  match g_list_find_custom file.cache page with
  | none =>
    let file1 : file_info_t :=
      if file.cache_length = CACHE_LENGTH then
        { file with cache := file.cache.dropLast, cache_length := file.cache_length - 1 }
      else file
    -- `g_slice_new` leaves the new image unset: `page` is assigned here and
    -- every other field by `rasterize` before the image is read
    let image : image_t :=
      rasterize bk file { page := page, scale := 0, rotation := 0, width := 0, height := 0 } page
    ({ file1 with cache := image :: file1.cache, cache_length := file1.cache_length + 1 }, image)
  | some (i, image) =>
    let cache1 : List image_t :=
      if i ≠ 0 then image :: file.cache.eraseIdx i else file.cache
    if image.scale = file.scale ∧ image.rotation = file.rotation then
      ({ file with cache := cache1 }, image)
    else
      let image1 := rasterize bk file image page
      ({ file with cache := cache1.set 0 image1 }, image1)

/-! ## Painting -/

/-- The variables of `scroll_v` that change in its loop. -/
structure scroll_v_locals where
  file : file_info_t
  page : Int
  line : Int
  height : Int

/-- One iteration of the loop of `scroll_v`. -/
def scroll_v_body (bk : backend_t) (w : scroll_v_locals) : Sum scroll_v_locals file_info_t :=
  if w.line < 0 then
    if w.page = 0 then
      Sum.inr { w.file with page := 0, line := 0 }
    else
      let page := w.page - 1
      let r := render_page bk w.file page
      let height := r.2.height + CLEARANCE
      Sum.inl { file := r.1, page := page, line := w.line + height, height := height }
  else if w.line < w.height then
    Sum.inr { w.file with page := w.page, line := (w.line : ℚ) / ((w.height : ℚ) - 1) }
  else
    if w.page = w.file.pages_number - 1 then
      Sum.inr { w.file with page := w.page, line := 1 }
    else
      let line := w.line - w.height
      let page := w.page + 1
      let r := render_page bk w.file page
      Sum.inl { file := r.1, page := page, line := line, height := r.2.height + CLEARANCE }

/-- The loop state with which `scroll_v` enters its loop. -/
def scroll_v_init (bk : backend_t) (file : file_info_t) (step : Int) : scroll_v_locals :=
  let page := file.page
  let r := render_page bk file page
  let height := r.2.height + CLEARANCE
  let line := float_to_int (r.1.line * (((height - 1 : Int)) : ℚ) + (step : ℚ))
  { file := r.1, page := page, line := line, height := height }

/-- The function `scroll_v`, its loop bounded by `fuel` iterations. -/
def scroll_v (bk : backend_t) (fuel : Nat) (file : file_info_t) (step : Int) :
    Option file_info_t :=
  while_1 (scroll_v_body bk) fuel (scroll_v_init bk file step)

def scroll_h (file : file_info_t) (step : Int) : file_info_t :=
  set_file_bias file (file.bias + (step : ℚ))

def resize (file : file_info_t) (delta : ℚ) : file_info_t :=
  let bias := file.bias / file.scale
  let file1 := set_file_scale file (file.scale + delta)
  set_file_bias file1 (bias * file1.scale)

/-! ## Sequences of cache operations -/

/-- The pages requested in order: the state after `render_page` for each. -/
def render_pages (bk : backend_t) (file : file_info_t) (pages : List Int) : file_info_t :=
  pages.foldl (fun f p => (render_page bk f p).1) file

/-- What may happen to the cache and to the rendering parameters between two
looks at the cache: a call of `render_page`, or any write to `file->scale` or
to `file->rotation`. -/
inductive cache_op where
  | render (page : Int)
  | scale (s : ℚ)
  | rotation (r : ℚ)

def apply_op (bk : backend_t) (file : file_info_t) : cache_op → file_info_t
  | cache_op.render page => (render_page bk file page).1
  | cache_op.scale s => { file with scale := s }
  | cache_op.rotation r => set_rotation file r

def run_ops (bk : backend_t) (file : file_info_t) (ops : List cache_op) : file_info_t :=
  ops.foldl (apply_op bk) file

/-! ## Vocabulary for the statements about the cache -/

/-- The page indices in the cache, most recently used first. -/
def cached_pages (file : file_info_t) : List Int := file.cache.map (fun a => a.page)

/-- The invariant of the cache: no page index twice, at most `CACHE_LENGTH`
entries, and `cache_length` counts the entries. -/
def cache_ok (file : file_info_t) : Prop :=
  (cached_pages file).Nodup ∧ (file.cache.length : Int) ≤ CACHE_LENGTH ∧
    file.cache_length = (file.cache.length : Int)

instance (file : file_info_t) : Decidable (cache_ok file) := by
  unfold cache_ok
  infer_instance

/-- The image that a cache hit on `e` returns: `e` itself when it was rendered
with the current parameters, a fresh rendering otherwise. -/
def hit_image (bk : backend_t) (file : file_info_t) (e : image_t) (page : Int) : image_t :=
  if e.scale = file.scale ∧ e.rotation = file.rotation then e else rasterize bk file e page

/-- The image that a cache miss creates. -/
def miss_image (bk : backend_t) (file : file_info_t) (page : Int) : image_t :=
  { page := page
    scale := file.scale
    rotation := file.rotation
    width := (bk page file.scale file.rotation).1
    height := (bk page file.scale file.rotation).2 }

/-- A backend for the concrete instances: every page is 600 wide and 800 high. -/
def demo_backend : backend_t := fun _ _ _ => (600, 800)

/-- The ViewState predicate: the page is a page of the document, the line is
in [0, 1] and the scale in [0.1, 10]. -/
def view_ok (file : file_info_t) : Prop :=
  (0 ≤ file.page ∧ file.page < file.pages_number) ∧
  (0 ≤ file.line ∧ file.line ≤ 1) ∧
  (1 / 10 ≤ file.scale ∧ file.scale ≤ 10)

instance (file : file_info_t) : Decidable (view_ok file) := by
  unfold view_ok
  infer_instance

/-- The pages of the loop states of `scroll_v`, one per iteration executed
when the loop is run for at most `fuel` iterations. -/
def scroll_v_pages (bk : backend_t) (fuel : Nat) (file : file_info_t) (step : Int) : List Int :=
  (while_1_trace (scroll_v_body bk) fuel (scroll_v_init bk file step)).map (fun w => w.page)

/-- The loop invariant of `scroll_v` behind the ViewState predicate: the page
of the walk is a page of the document, the height of the walk is at least
`CLEARANCE`, no cached height is negative and the scale is in range. -/
def walk_ok (w : scroll_v_locals) : Prop :=
  (0 ≤ w.page ∧ w.page < w.file.pages_number) ∧ 2 ≤ w.height ∧
  (∀ a ∈ w.file.cache, 0 ≤ a.height) ∧ (1 / 10 ≤ w.file.scale ∧ w.file.scale ≤ 10)

theorem compare_page_eq_zero (a : image_t) (b : Int) : compare_page a b = 0 ↔ a.page = b := by
  unfold compare_page
  split_ifs with h1 h2
  · constructor
    · intro h; exact absurd h (by decide)
    · intro h; omega
  · simp [h2]
  · simp [h2]

theorem g_list_find_custom_none (l : List image_t) (p : Int) (h : ∀ a ∈ l, a.page ≠ p) :
    g_list_find_custom l p = none := by
  induction l with
  | nil => rfl
  | cons a l ih =>
    have ha : ¬ compare_page a p = 0 := by
      rw [compare_page_eq_zero]; exact h a (List.mem_cons_self _ _)
    simp only [g_list_find_custom, ha, if_false]
    rw [ih (fun x hx => h x (List.mem_cons_of_mem _ hx))]
    rfl

theorem g_list_find_custom_append (pre : List image_t) (e : image_t) (post : List image_t)
    (p : Int) (hpre : ∀ x ∈ pre, x.page ≠ p) (he : e.page = p) :
    g_list_find_custom (pre ++ e :: post) p = some (pre.length, e) := by
  induction pre with
  | nil =>
    have : compare_page e p = 0 := (compare_page_eq_zero e p).2 he
    simp [g_list_find_custom, this]
  | cons a pre ih =>
    have ha : ¬ compare_page a p = 0 := by
      rw [compare_page_eq_zero]; exact hpre a (List.mem_cons_self _ _)
    have ih1 := ih (fun x hx => hpre x (List.mem_cons_of_mem _ hx))
    simp only [List.cons_append, g_list_find_custom, ha, if_false]
    show Option.map (fun r => (r.1 + 1, r.2)) (g_list_find_custom (pre ++ e :: post) p) = _
    rw [ih1]
    rfl

/-- Every cache either has no entry for `p`, or splits at its first entry for `p`. -/
theorem cache_split (l : List image_t) (p : Int) :
    (∀ a ∈ l, a.page ≠ p) ∨
    ∃ pre e post, l = pre ++ e :: post ∧ (∀ x ∈ pre, x.page ≠ p) ∧ e.page = p := by
  induction l with
  | nil => left; simp
  | cons a l ih =>
    by_cases ha : a.page = p
    · right; exact ⟨[], a, l, rfl, by simp, ha⟩
    · rcases ih with h | ⟨pre, e, post, hl, hpre, he⟩
      · left
        intro x hx
        rcases List.mem_cons.1 hx with rfl | hx
        · exact ha
        · exact h x hx
      · right
        refine ⟨a :: pre, e, post, by simp [hl], ?_, he⟩
        intro x hx
        rcases List.mem_cons.1 hx with rfl | hx
        · exact ha
        · exact hpre x hx

theorem eraseIdx_split (pre : List image_t) (e : image_t) (post : List image_t) :
    (pre ++ e :: post).eraseIdx pre.length = pre ++ post := by
  induction pre with
  | nil => rfl
  | cons a pre ih => simp [List.eraseIdx, ih]

theorem render_page_miss (bk : backend_t) (file : file_info_t) (p : Int)
    (h : ∀ a ∈ file.cache, a.page ≠ p) :
    render_page bk file p =
      ({ file with
          cache := miss_image bk file p ::
            (if file.cache_length = CACHE_LENGTH then file.cache.dropLast else file.cache)
          cache_length :=
            (if file.cache_length = CACHE_LENGTH then file.cache_length - 1
             else file.cache_length) + 1 },
        miss_image bk file p) := by
  unfold render_page
  rw [g_list_find_custom_none _ _ h]
  by_cases hl : file.cache_length = CACHE_LENGTH <;> simp [hl, rasterize, miss_image]

theorem render_page_hit (bk : backend_t) (file : file_info_t) (p : Int)
    (pre : List image_t) (e : image_t) (post : List image_t)
    (hc : file.cache = pre ++ e :: post) (hpre : ∀ x ∈ pre, x.page ≠ p) (he : e.page = p) :
    render_page bk file p =
      ({ file with cache := hit_image bk file e p :: (pre ++ post) }, hit_image bk file e p) := by
  unfold render_page
  rw [hc, g_list_find_custom_append pre e post p hpre he]
  have h1 : (if pre.length ≠ 0 then e :: (pre ++ e :: post).eraseIdx pre.length
      else pre ++ e :: post) = e :: (pre ++ post) := by
    cases pre with
    | nil => simp
    | cons a pre => rw [eraseIdx_split]; simp
  simp only [h1]
  by_cases hs : e.scale = file.scale ∧ e.rotation = file.rotation
  · simp [hit_image, hs]
  · simp [hit_image, hs]

theorem hit_image_page (bk : backend_t) (file : file_info_t) (e : image_t) (p : Int) :
    (hit_image bk file e p).page = e.page := by
  unfold hit_image rasterize
  split_ifs <;> rfl

theorem take_append_take {α : Type} (n : Nat) (a b : List α) :
    (a ++ b.take n).take n = (a ++ b).take n := by
  rw [List.take_append_eq_append_take, List.take_append_eq_append_take, List.take_take]
  congr 2
  omega

theorem take_min_length {α : Type} (n : Nat) (l : List α) :
    l.take (min l.length n) = l.take n := by
  rcases Nat.le_total l.length n with h | h
  · rw [Nat.min_eq_left h, List.take_of_length_le h, List.take_of_length_le (le_refl _)]
  · rw [Nat.min_eq_right h]

/-- A miss on a cache that satisfies the length invariants puts the page in
front and keeps the ten most recent entries. -/
theorem render_page_miss_pages (bk : backend_t) (file : file_info_t) (p : Int)
    (h : ∀ a ∈ file.cache, a.page ≠ p)
    (hle : (file.cache.length : Int) ≤ CACHE_LENGTH)
    (hlen : file.cache_length = (file.cache.length : Int)) :
    cached_pages (render_page bk file p).1 = (p :: cached_pages file).take 10 ∧
    ((render_page bk file p).1.cache.length : Int) ≤ CACHE_LENGTH ∧
    (render_page bk file p).1.cache_length = ((render_page bk file p).1.cache.length : Int) := by
  rw [render_page_miss bk file p h]
  unfold CACHE_LENGTH at *
  by_cases h10 : file.cache_length = 10
  · have hl : file.cache.length = 10 := by omega
    have h9 : (cached_pages file).length - 1 = 9 := by simp [cached_pages, hl]
    refine ⟨?_, ?_, ?_⟩
    · simp only [cached_pages, h10, if_true, List.map_cons, miss_image, List.map_dropLast]
      rw [List.dropLast_eq_take]
      simp only [cached_pages] at h9
      rw [h9]
      rfl
    · simp only [h10, if_true, List.length_cons, List.length_dropLast, hl]
      decide
    · simp only [h10, if_true, List.length_cons, List.length_dropLast, hl]
      decide
  · have hl : file.cache.length < 10 := by omega
    refine ⟨?_, ?_, ?_⟩
    · simp only [cached_pages, h10, if_false, List.map_cons, miss_image]
      rw [List.take_of_length_le]
      simp only [List.length_cons, List.length_map]
      omega
    · simp only [h10, if_false, List.length_cons]
      push_cast
      omega
    · simp only [h10, if_false, List.length_cons]
      push_cast
      omega

theorem render_pages_distinct (bk : backend_t) (pages : List Int) :
    ∀ file : file_info_t, pages.Nodup → (∀ p ∈ pages, p ∉ cached_pages file) →
      (file.cache.length : Int) ≤ CACHE_LENGTH →
      file.cache_length = (file.cache.length : Int) →
      cached_pages (render_pages bk file pages) = (pages.reverse ++ cached_pages file).take 10 ∧
      (render_pages bk file pages).cache_length =
        ((render_pages bk file pages).cache.length : Int) := by
  induction pages with
  | nil =>
    intro file _ _ hle hlen
    refine ⟨?_, hlen⟩
    simp only [render_pages, List.foldl_nil, List.reverse_nil, List.nil_append]
    rw [List.take_of_length_le]
    simp only [cached_pages, List.length_map]
    unfold CACHE_LENGTH at hle
    omega
  | cons p pages ih =>
    intro file hnd hnew hle hlen
    have hmiss : ∀ a ∈ file.cache, a.page ≠ p := by
      intro a ha hp
      exact hnew p (List.mem_cons_self _ _) (by
        simp only [cached_pages, List.mem_map]
        exact ⟨a, ha, hp⟩)
    obtain ⟨h1, h2, h3⟩ := render_page_miss_pages bk file p hmiss hle hlen
    have hnd1 : pages.Nodup := (List.nodup_cons.1 hnd).2
    have hp : p ∉ pages := (List.nodup_cons.1 hnd).1
    have hnew1 : ∀ q ∈ pages, q ∉ cached_pages (render_page bk file p).1 := by
      intro q hq hmem
      rw [h1] at hmem
      rcases List.mem_cons.1 (List.mem_of_mem_take hmem) with rfl | hmem
      · exact hp hq
      · exact hnew q (List.mem_cons_of_mem _ hq) hmem
    have := ih (render_page bk file p).1 hnd1 hnew1 h2 h3
    have hstep : render_pages bk file (p :: pages) =
        render_pages bk (render_page bk file p).1 pages := rfl
    rw [hstep]
    refine ⟨?_, this.2⟩
    rw [this.1, h1, take_append_take]
    simp

/-- C1: requesting pairwise distinct pages in order from the empty cache of
`open_file` leaves exactly the last `min n 10` requested pages in the cache,
most recently requested first, and `cache_length` counts them; requesting pages
1, 2, .., 12 leaves pages 12, 11, .., 3 in this order (12 at the front, 3 at
the tail). -/
theorem render_pages_lru (bk : backend_t) (pages_number : Int) (pages : List Int)
    (h : pages.Nodup) :
    cached_pages (render_pages bk (open_file pages_number) pages) =
      pages.reverse.take (min pages.length 10) ∧
    (render_pages bk (open_file pages_number) pages).cache_length =
      ((min pages.length 10 : Nat) : Int) ∧
    cached_pages (render_pages bk (open_file pages_number) [1, 2, 3, 4, 5, 6, 7, 8, 9, 10, 11, 12]) =
      [12, 11, 10, 9, 8, 7, 6, 5, 4, 3] := by
  have key : ∀ ps : List Int, ps.Nodup →
      cached_pages (render_pages bk (open_file pages_number) ps) = ps.reverse.take 10 ∧
      (render_pages bk (open_file pages_number) ps).cache_length =
        ((render_pages bk (open_file pages_number) ps).cache.length : Int) := by
    intro ps hps
    have := render_pages_distinct bk ps (open_file pages_number) hps
      (by simp [cached_pages, open_file]) (by simp [open_file, CACHE_LENGTH])
      (by simp [open_file])
    simpa [cached_pages, open_file] using this
  obtain ⟨k1, k2⟩ := key pages h
  refine ⟨?_, ?_, ?_⟩
  · rw [k1, ← take_min_length 10 pages.reverse, List.length_reverse]
  · rw [k2]
    have : (render_pages bk (open_file pages_number) pages).cache.length =
        (cached_pages (render_pages bk (open_file pages_number) pages)).length := by
      simp [cached_pages]
    rw [this, k1, List.length_take, List.length_reverse, Nat.min_comm]
  · rw [(key [1, 2, 3, 4, 5, 6, 7, 8, 9, 10, 11, 12] (by decide)).1]
    rfl

theorem render_pages_lru_witness :
    [(1 : Int), 2, 3, 4, 5, 6, 7, 8, 9, 10, 11, 12].Nodup ∧
    (cached_pages (render_pages demo_backend (open_file 20)
        [1, 2, 3, 4, 5, 6, 7, 8, 9, 10, 11, 12]) =
      [(1 : Int), 2, 3, 4, 5, 6, 7, 8, 9, 10, 11, 12].reverse.take
        (min [(1 : Int), 2, 3, 4, 5, 6, 7, 8, 9, 10, 11, 12].length 10) ∧
    (render_pages demo_backend (open_file 20)
        [1, 2, 3, 4, 5, 6, 7, 8, 9, 10, 11, 12]).cache_length =
      ((min [(1 : Int), 2, 3, 4, 5, 6, 7, 8, 9, 10, 11, 12].length 10 : Nat) : Int) ∧
    cached_pages (render_pages demo_backend (open_file 20)
        [1, 2, 3, 4, 5, 6, 7, 8, 9, 10, 11, 12]) =
      [12, 11, 10, 9, 8, 7, 6, 5, 4, 3]) :=
  ⟨by decide,
    render_pages_lru demo_backend 20 [1, 2, 3, 4, 5, 6, 7, 8, 9, 10, 11, 12] (by decide)⟩

/-! ## The cache invariant -/

theorem render_page_cache_ok (bk : backend_t) (file : file_info_t) (p : Int)
    (h : cache_ok file) : cache_ok (render_page bk file p).1 := by
  obtain ⟨hnd, hle, hlen⟩ := h
  rcases cache_split file.cache p with hmiss | ⟨pre, e, post, hc, hpre, he⟩
  · obtain ⟨h1, h2, h3⟩ := render_page_miss_pages bk file p hmiss hle hlen
    refine ⟨?_, h2, h3⟩
    rw [h1]
    refine List.Nodup.sublist (List.take_sublist _ _) (List.nodup_cons.2 ⟨?_, hnd⟩)
    intro hp
    simp only [cached_pages, List.mem_map] at hp
    obtain ⟨a, ha, hap⟩ := hp
    exact hmiss a ha hap
  · rw [render_page_hit bk file p pre e post hc hpre he]
    have hperm : (cached_pages file).Perm
        ((hit_image bk file e p).page :: (pre ++ post).map (fun a => a.page)) := by
      rw [hit_image_page]
      simp only [cached_pages, hc, List.map_append, List.map_cons]
      exact List.perm_middle
    refine ⟨?_, ?_, ?_⟩
    · simp only [cached_pages, List.map_cons]
      exact (List.Perm.nodup_iff hperm).1 hnd
    · simpa [hc] using hle
    · simpa [hc] using hlen

theorem run_ops_cache_ok (bk : backend_t) (ops : List cache_op) :
    ∀ file : file_info_t, cache_ok file → cache_ok (run_ops bk file ops) := by
  induction ops with
  | nil => intro file h; exact h
  | cons op ops ih =>
    intro file h
    have hstep : run_ops bk file (op :: ops) = run_ops bk (apply_op bk file op) ops := rfl
    rw [hstep]
    apply ih
    cases op with
    | render page => exact render_page_cache_ok bk file page h
    | scale s => exact h
    | rotation r => exact h

/-- C2: after every sequence of `render_page` calls and writes to
`file->scale` / `file->rotation`, starting from the state of `open_file`, the
cache has no two entries with the same page index, has at most
`CACHE_LENGTH = 10` entries, and `cache_length` is the number of entries of
the cache list. -/
theorem cache_invariant (bk : backend_t) (pages_number : Int) (ops : List cache_op) :
    (cached_pages (run_ops bk (open_file pages_number) ops)).Nodup ∧
    (run_ops bk (open_file pages_number) ops).cache.length ≤ 10 ∧
    (run_ops bk (open_file pages_number) ops).cache_length =
      ((run_ops bk (open_file pages_number) ops).cache.length : Int) := by
  have h0 : cache_ok (open_file pages_number) := by
    simp [cache_ok, cached_pages, open_file, CACHE_LENGTH]
  obtain ⟨h1, h2, h3⟩ := run_ops_cache_ok bk ops (open_file pages_number) h0
  refine ⟨h1, ?_, h3⟩
  unfold CACHE_LENGTH at h2
  omega

/-! ## Re-rendering a stale entry -/

/-- C3: when the first cache entry for page `p` (the entry `e`, after `pre`
and before `post`) was rendered at another scale or rotation than the current
ones, `render_page` keeps `cache_length` and the number of entries, keeps the
cached page indices, puts the entry of `p` at the front followed by all other
entries in their previous order, returns that front entry, and the returned
image is for page `p` at the current scale and rotation with the size given by
the backend; nothing else of the file changes. -/
theorem render_page_stale (bk : backend_t) (file : file_info_t) (p : Int)
    (pre : List image_t) (e : image_t) (post : List image_t)
    (hc : file.cache = pre ++ e :: post) (hpre : ∀ x ∈ pre, x.page ≠ p) (he : e.page = p)
    (hstale : e.scale ≠ file.scale ∨ e.rotation ≠ file.rotation) :
    (render_page bk file p).1.cache_length = file.cache_length ∧
    (render_page bk file p).1.cache.length = file.cache.length ∧
    (cached_pages (render_page bk file p).1).Perm (cached_pages file) ∧
    (render_page bk file p).1.cache = (render_page bk file p).2 :: (pre ++ post) ∧
    cached_pages (render_page bk file p).1 =
      p :: (pre ++ post).map (fun a => a.page) ∧
    (render_page bk file p).2 =
      { page := p, scale := file.scale, rotation := file.rotation,
        width := (bk p file.scale file.rotation).1,
        height := (bk p file.scale file.rotation).2 } ∧
    (render_page bk file p).1 = { file with cache := (render_page bk file p).1.cache } := by
  have hs : ¬ (e.scale = file.scale ∧ e.rotation = file.rotation) := by
    rintro ⟨h1, h2⟩
    rcases hstale with h | h
    · exact h h1
    · exact h h2
  have himg : hit_image bk file e p =
      { page := p, scale := file.scale, rotation := file.rotation,
        width := (bk p file.scale file.rotation).1,
        height := (bk p file.scale file.rotation).2 } := by
    simp [hit_image, hs, rasterize, he]
  rw [render_page_hit bk file p pre e post hc hpre he, himg]
  refine ⟨rfl, ?_, ?_, rfl, ?_, rfl, rfl⟩
  · simp only [hc, List.length_cons, List.length_append]
    omega
  · simp only [cached_pages, hc, List.map_append, List.map_cons, he]
    exact List.perm_middle.symm
  · simp [cached_pages]

theorem render_page_stale_witness :
    (render_page demo_backend
        { open_file 5 with
          scale := 2
          cache := [⟨0, 1, 0, 600, 800⟩, ⟨3, 1, 0, 600, 800⟩, ⟨1, 2, 0, 600, 800⟩]
          cache_length := 3 } 3).1.cache =
      [⟨3, 2, 0, 600, 800⟩, ⟨0, 1, 0, 600, 800⟩, ⟨1, 2, 0, 600, 800⟩] := by
  have h := render_page_stale demo_backend
    { open_file 5 with
      scale := 2
      cache := [⟨0, 1, 0, 600, 800⟩, ⟨3, 1, 0, 600, 800⟩, ⟨1, 2, 0, 600, 800⟩]
      cache_length := 3 } 3
    [⟨0, 1, 0, 600, 800⟩] ⟨3, 1, 0, 600, 800⟩ [⟨1, 2, 0, 600, 800⟩]
    rfl (by simp) rfl (Or.inl (by norm_num))
  rw [h.2.2.2.1, h.2.2.2.2.2.1]
  rfl

/-! ## Lemmas on loops -/

theorem while_1_mono {σ ρ : Type} (body : σ → Sum σ ρ) :
    ∀ (n m : Nat) (s : σ) (r : ρ), n ≤ m → while_1 body n s = some r →
      while_1 body m s = some r := by
  intro n
  induction n with
  | zero => intro m s r _ h; simp [while_1] at h
  | succ n ih =>
    intro m s r hnm h
    obtain ⟨m, rfl⟩ : ∃ k, m = k + 1 := ⟨m - 1, by omega⟩
    unfold while_1 at h ⊢
    cases hb : body s with
    | inl s' =>
      rw [hb] at h
      exact ih m s' r (by omega) h
    | inr r' =>
      rw [hb] at h
      exact h

theorem while_1_inv {σ ρ : Type} (body : σ → Sum σ ρ) (I : σ → Prop) (Q : ρ → Prop)
    (hl : ∀ s s', I s → body s = Sum.inl s' → I s')
    (hr : ∀ s r, I s → body s = Sum.inr r → Q r) :
    ∀ (n : Nat) (s : σ) (r : ρ), I s → while_1 body n s = some r → Q r := by
  intro n
  induction n with
  | zero => intro s r _ h; simp [while_1] at h
  | succ n ih =>
    intro s r hs h
    unfold while_1 at h
    cases hb : body s with
    | inl s' =>
      rw [hb] at h
      exact ih s' r (hl s s' hs hb) h
    | inr r' =>
      rw [hb] at h
      have hrr : r' = r := by simpa using h
      rw [← hrr]
      exact hr s r' hs hb

theorem while_1_trace_head {σ ρ : Type} (body : σ → Sum σ ρ) (n : Nat) (s : σ) :
    ∀ y ∈ (while_1_trace body n s).head?, y = s := by
  intro y hy
  cases n with
  | zero => simp [while_1_trace] at hy
  | succ n =>
    unfold while_1_trace at hy
    cases hb : body s with
    | inl s' => rw [hb] at hy; simpa using hy.symm
    | inr r => rw [hb] at hy; simpa using hy.symm

theorem while_1_trace_length {σ ρ : Type} (body : σ → Sum σ ρ) :
    ∀ (n : Nat) (s : σ), (while_1_trace body n s).length ≤ n := by
  intro n
  induction n with
  | zero => intro s; simp [while_1_trace]
  | succ n ih =>
    intro s
    unfold while_1_trace
    cases hb : body s with
    | inl s' => simpa using ih s'
    | inr r => simp

/-! ## Lemmas on `float_to_int` -/

theorem scroll_v_body_first (bk : backend_t) (w : scroll_v_locals)
    (h1 : w.line < 0) (h2 : w.page = 0) :
    scroll_v_body bk w = Sum.inr { w.file with page := 0, line := 0 } := by
  simp [scroll_v_body, h1, h2]

theorem scroll_v_body_prev (bk : backend_t) (w : scroll_v_locals)
    (h1 : w.line < 0) (h2 : w.page ≠ 0) :
    scroll_v_body bk w = Sum.inl
      { file := (render_page bk w.file (w.page - 1)).1
        page := w.page - 1
        line := w.line + ((render_page bk w.file (w.page - 1)).2.height + CLEARANCE)
        height := (render_page bk w.file (w.page - 1)).2.height + CLEARANCE } := by
  simp [scroll_v_body, h1, h2]

theorem scroll_v_body_inside (bk : backend_t) (w : scroll_v_locals)
    (h1 : ¬ w.line < 0) (h2 : w.line < w.height) :
    scroll_v_body bk w = Sum.inr
      { w.file with page := w.page, line := (w.line : ℚ) / ((w.height : ℚ) - 1) } := by
  simp [scroll_v_body, h1, h2]

theorem scroll_v_body_last (bk : backend_t) (w : scroll_v_locals)
    (h1 : ¬ w.line < 0) (h2 : ¬ w.line < w.height) (h3 : w.page = w.file.pages_number - 1) :
    scroll_v_body bk w = Sum.inr { w.file with page := w.page, line := 1 } := by
  simp [scroll_v_body, h1, h2, h3]

theorem scroll_v_body_next (bk : backend_t) (w : scroll_v_locals)
    (h1 : ¬ w.line < 0) (h2 : ¬ w.line < w.height) (h3 : w.page ≠ w.file.pages_number - 1) :
    scroll_v_body bk w = Sum.inl
      { file := (render_page bk w.file (w.page + 1)).1
        page := w.page + 1
        line := w.line - w.height
        height := (render_page bk w.file (w.page + 1)).2.height + CLEARANCE } := by
  simp [scroll_v_body, h1, h2, h3]

/-- The fields of the file that `render_page` leaves alone. -/
theorem render_page_fields (bk : backend_t) (file : file_info_t) (p : Int) :
    (render_page bk file p).1 =
      { file with
        cache := (render_page bk file p).1.cache
        cache_length := (render_page bk file p).1.cache_length } := by
  rcases cache_split file.cache p with hmiss | ⟨pre, e, post, hc, hpre, he⟩
  · rw [render_page_miss bk file p hmiss]
  · rw [render_page_hit bk file p pre e post hc hpre he]

theorem render_page_pages_number (bk : backend_t) (file : file_info_t) (p : Int) :
    (render_page bk file p).1.pages_number = file.pages_number := by
  rw [render_page_fields]

theorem render_page_scale (bk : backend_t) (file : file_info_t) (p : Int) :
    (render_page bk file p).1.scale = file.scale := by
  rw [render_page_fields]

theorem render_page_heights (bk : backend_t) (hbk : ∀ p s r, 0 ≤ (bk p s r).2)
    (file : file_info_t) (hc : ∀ a ∈ file.cache, 0 ≤ a.height) (p : Int) :
    0 ≤ (render_page bk file p).2.height ∧
    ∀ a ∈ (render_page bk file p).1.cache, 0 ≤ a.height := by
  rcases cache_split file.cache p with hmiss | ⟨pre, e, post, hcache, hpre, he⟩
  · rw [render_page_miss bk file p hmiss]
    have himg : 0 ≤ (miss_image bk file p).height := hbk _ _ _
    refine ⟨himg, ?_⟩
    intro a ha
    rcases List.mem_cons.1 ha with rfl | ha
    · exact himg
    · split_ifs at ha
      · exact hc a (List.mem_of_mem_dropLast ha)
      · exact hc a ha
  · rw [render_page_hit bk file p pre e post hcache hpre he]
    have himg : 0 ≤ (hit_image bk file e p).height := by
      unfold hit_image
      split_ifs
      · exact hc e (by rw [hcache]; simp)
      · exact hbk _ _ _
    refine ⟨himg, ?_⟩
    intro a ha
    rcases List.mem_cons.1 ha with rfl | ha
    · exact himg
    · apply hc a
      rw [hcache]
      rcases List.mem_append.1 ha with h | h
      · exact List.mem_append_left _ h
      · exact List.mem_append_right _ (List.mem_cons_of_mem _ h)

theorem while_1_inl {σ ρ : Type} (body : σ → Sum σ ρ) (n : Nat) (s s' : σ)
    (h : body s = Sum.inl s') : while_1 body (n + 1) s = while_1 body n s' := by
  simp [while_1, h]

theorem while_1_inr {σ ρ : Type} (body : σ → Sum σ ρ) (n : Nat) (s : σ) (r : ρ)
    (h : body s = Sum.inr r) : while_1 body (n + 1) s = some r := by
  simp [while_1, h]

theorem while_1_trace_inl {σ ρ : Type} (body : σ → Sum σ ρ) (n : Nat) (s s' : σ)
    (h : body s = Sum.inl s') :
    while_1_trace body (n + 1) s = s :: while_1_trace body n s' := by
  simp [while_1_trace, h]

theorem while_1_trace_inr {σ ρ : Type} (body : σ → Sum σ ρ) (n : Nat) (s : σ) (r : ρ)
    (h : body s = Sum.inr r) : while_1_trace body (n + 1) s = [s] := by
  simp [while_1_trace, h]

/-- A walk that is not beyond the end of its page only moves to previous pages. -/
theorem walk_prev (bk : backend_t) :
    ∀ (n : Nat) (w : scroll_v_locals), (w.line < 0 ∨ w.line < w.height) → 0 ≤ w.page →
      List.Chain' (fun a b : Int => b = a - 1)
        ((while_1_trace (scroll_v_body bk) n w).map (fun x => x.page)) ∧
      ((while_1_trace (scroll_v_body bk) n w).length : Int) ≤ w.page + 1 ∧
      (w.page + 1 ≤ (n : Int) → ∃ r, while_1 (scroll_v_body bk) n w = some r) := by
  intro n
  induction n with
  | zero =>
    intro w _ hp
    refine ⟨by simp [while_1_trace], by simp [while_1_trace]; omega, ?_⟩
    intro h
    simp at h
    omega
  | succ n ih =>
    intro w hw hp
    by_cases h1 : w.line < 0
    · by_cases h2 : w.page = 0
      · have hb := scroll_v_body_first bk w h1 h2
        rw [while_1_trace_inr _ _ _ _ hb, while_1_inr _ _ _ _ hb]
        refine ⟨by simp, by simp; omega, fun _ => ⟨_, rfl⟩⟩
      · have hb := scroll_v_body_prev bk w h1 h2
        rw [while_1_trace_inl _ _ _ _ hb, while_1_inl _ _ _ _ hb]
        obtain ⟨c1, c2, c3⟩ := ih
          { file := (render_page bk w.file (w.page - 1)).1
            page := w.page - 1
            line := w.line + ((render_page bk w.file (w.page - 1)).2.height + CLEARANCE)
            height := (render_page bk w.file (w.page - 1)).2.height + CLEARANCE }
          (Or.inr (by
            show w.line + ((render_page bk w.file (w.page - 1)).2.height + CLEARANCE) <
              (render_page bk w.file (w.page - 1)).2.height + CLEARANCE
            omega))
          (by show 0 ≤ w.page - 1; omega)
        refine ⟨?_, ?_, ?_⟩
        · rw [List.map_cons, List.chain'_cons']
          refine ⟨?_, c1⟩
          intro y hy
          rw [List.head?_map] at hy
          simp only [Option.mem_def, Option.map_eq_some'] at hy
          obtain ⟨x, hx, rfl⟩ := hy
          rw [while_1_trace_head _ _ _ x hx]
        · simp only [List.length_cons]
          push_cast
          have : (w.page - 1) + 1 = w.page := by ring
          simp only [this] at c2
          omega
        · intro hn
          apply c3
          show w.page - 1 + 1 ≤ (n : Int)
          push_cast at hn
          omega
    · have h2 : w.line < w.height := by
        rcases hw with h | h
        · exact absurd h h1
        · exact h
      have hb := scroll_v_body_inside bk w h1 h2
      rw [while_1_trace_inr _ _ _ _ hb, while_1_inr _ _ _ _ hb]
      refine ⟨by simp, by simp; omega, fun _ => ⟨_, rfl⟩⟩

/-- A walk whose offset is not negative only moves to next pages. -/
theorem walk_next (bk : backend_t) :
    ∀ (n : Nat) (w : scroll_v_locals), 0 ≤ w.line → w.page < w.file.pages_number →
      List.Chain' (fun a b : Int => b = a + 1)
        ((while_1_trace (scroll_v_body bk) n w).map (fun x => x.page)) ∧
      ((while_1_trace (scroll_v_body bk) n w).length : Int) ≤ w.file.pages_number - w.page ∧
      (w.file.pages_number - w.page ≤ (n : Int) →
        ∃ r, while_1 (scroll_v_body bk) n w = some r) := by
  intro n
  induction n with
  | zero =>
    intro w _ hp
    refine ⟨by simp [while_1_trace], by simp [while_1_trace]; omega, ?_⟩
    intro h
    simp at h
    omega
  | succ n ih =>
    intro w hw hp
    have h1 : ¬ w.line < 0 := by omega
    by_cases h2 : w.line < w.height
    · have hb := scroll_v_body_inside bk w h1 h2
      rw [while_1_trace_inr _ _ _ _ hb, while_1_inr _ _ _ _ hb]
      refine ⟨by simp, by simp; omega, fun _ => ⟨_, rfl⟩⟩
    · by_cases h3 : w.page = w.file.pages_number - 1
      · have hb := scroll_v_body_last bk w h1 h2 h3
        rw [while_1_trace_inr _ _ _ _ hb, while_1_inr _ _ _ _ hb]
        refine ⟨by simp, by simp; omega, fun _ => ⟨_, rfl⟩⟩
      · have hb := scroll_v_body_next bk w h1 h2 h3
        rw [while_1_trace_inl _ _ _ _ hb, while_1_inl _ _ _ _ hb]
        have hN := render_page_pages_number bk w.file (w.page + 1)
        obtain ⟨c1, c2, c3⟩ := ih
          { file := (render_page bk w.file (w.page + 1)).1
            page := w.page + 1
            line := w.line - w.height
            height := (render_page bk w.file (w.page + 1)).2.height + CLEARANCE }
          (by show 0 ≤ w.line - w.height; omega)
          (by show w.page + 1 < (render_page bk w.file (w.page + 1)).1.pages_number
              rw [hN]; omega)
        simp only [hN] at c2 c3
        refine ⟨?_, ?_, ?_⟩
        · rw [List.map_cons, List.chain'_cons']
          refine ⟨?_, c1⟩
          intro y hy
          rw [List.head?_map] at hy
          simp only [Option.mem_def, Option.map_eq_some'] at hy
          obtain ⟨x, hx, rfl⟩ := hy
          rw [while_1_trace_head _ _ _ x hx]
        · simp only [List.length_cons]
          push_cast
          omega
        · intro hn
          apply c3
          push_cast at hn
          omega

theorem scroll_v_init_page (bk : backend_t) (file : file_info_t) (step : Int) :
    (scroll_v_init bk file step).page = file.page := rfl

theorem scroll_v_init_pages_number (bk : backend_t) (file : file_info_t) (step : Int) :
    (scroll_v_init bk file step).file.pages_number = file.pages_number :=
  render_page_pages_number bk file file.page

theorem demo_backend_heights : ∀ (p : Int) (s r : ℚ), 0 ≤ (demo_backend p s r).2 := by
  intro p s r
  show (0 : Int) ≤ 800
  decide

/-! ## Termination of the vertical walk -/

/-- C7: from a start state with `0 ≤ page < pages_number`, for every step and
every backend (whatever the rendered heights), the loop of `scroll_v` returns
within `pages_number` iterations, the same result for every larger bound; it
never executes more than `pages_number` iterations, and the pages of its
successive loop states either all go down by one or all go up by one, so there
are at most `pages_number - 1` page moves, all in one direction. -/
theorem scroll_v_terminates (bk : backend_t) (file : file_info_t) (step : Int)
    (h0 : 0 ≤ file.page) (h1 : file.page < file.pages_number) :
    (∃ r, ∀ fuel : Nat, file.pages_number ≤ (fuel : Int) →
      scroll_v bk fuel file step = some r) ∧
    ∀ fuel : Nat,
      ((scroll_v_pages bk fuel file step).length : Int) ≤ file.pages_number ∧
      ((scroll_v_pages bk fuel file step).length : Int) - 1 ≤ file.pages_number - 1 ∧
      (List.Chain' (fun a b : Int => b = a - 1) (scroll_v_pages bk fuel file step) ∨
        List.Chain' (fun a b : Int => b = a + 1) (scroll_v_pages bk fuel file step)) := by
  have hp := scroll_v_init_page bk file step
  have hN := scroll_v_init_pages_number bk file step
  have hfuel : ((file.pages_number.toNat : Nat) : Int) = file.pages_number :=
    Int.toNat_of_nonneg (by omega)
  by_cases hw : (scroll_v_init bk file step).line < 0 ∨
      (scroll_v_init bk file step).line < (scroll_v_init bk file step).height
  · have hw0 : 0 ≤ (scroll_v_init bk file step).page := by rw [hp]; exact h0
    constructor
    · obtain ⟨r, hr⟩ := (walk_prev bk file.pages_number.toNat _ hw hw0).2.2
        (by rw [hp, hfuel]; omega)
      refine ⟨r, fun fuel hf => ?_⟩
      exact while_1_mono _ _ fuel _ r (by omega) hr
    · intro fuel
      obtain ⟨c1, c2, _⟩ := walk_prev bk fuel _ hw hw0
      rw [hp] at c2
      have hlen : (scroll_v_pages bk fuel file step).length =
          (while_1_trace (scroll_v_body bk) fuel (scroll_v_init bk file step)).length := by
        simp [scroll_v_pages]
      rw [hlen]
      exact ⟨by omega, by omega, Or.inl c1⟩
  · have hl : 0 ≤ (scroll_v_init bk file step).line := by omega
    have hlt : (scroll_v_init bk file step).page <
        (scroll_v_init bk file step).file.pages_number := by rw [hp, hN]; exact h1
    constructor
    · obtain ⟨r, hr⟩ := (walk_next bk file.pages_number.toNat _ hl hlt).2.2
        (by rw [hp, hN, hfuel]; omega)
      refine ⟨r, fun fuel hf => ?_⟩
      exact while_1_mono _ _ fuel _ r (by omega) hr
    · intro fuel
      obtain ⟨c1, c2, _⟩ := walk_next bk fuel _ hl hlt
      rw [hp, hN] at c2
      have hlen : (scroll_v_pages bk fuel file step).length =
          (while_1_trace (scroll_v_body bk) fuel (scroll_v_init bk file step)).length := by
        simp [scroll_v_pages]
      rw [hlen]
      exact ⟨by omega, by omega, Or.inr c1⟩

theorem scroll_v_terminates_witness :
    (0 ≤ (open_file 3).page ∧ (open_file 3).page < (open_file 3).pages_number) ∧
    ((∃ r, ∀ fuel : Nat, (open_file 3).pages_number ≤ (fuel : Int) →
      scroll_v demo_backend fuel (open_file 3) 2000 = some r) ∧
    ∀ fuel : Nat,
      ((scroll_v_pages demo_backend fuel (open_file 3) 2000).length : Int) ≤
        (open_file 3).pages_number ∧
      ((scroll_v_pages demo_backend fuel (open_file 3) 2000).length : Int) - 1 ≤
        (open_file 3).pages_number - 1 ∧
      (List.Chain' (fun a b : Int => b = a - 1)
          (scroll_v_pages demo_backend fuel (open_file 3) 2000) ∨
        List.Chain' (fun a b : Int => b = a + 1)
          (scroll_v_pages demo_backend fuel (open_file 3) 2000))) :=
  ⟨⟨by decide, by decide⟩,
    scroll_v_terminates demo_backend (open_file 3) 2000 (by decide) (by decide)⟩

/-! ## Saturation of the vertical walk at both ends -/

theorem set_file_position_fields (file : file_info_t) (page : Int) (line : ℚ) :
    (set_file_position file page line).pages_number = file.pages_number ∧
    (set_file_position file page line).scale = file.scale ∧
    (set_file_position file page line).cache = file.cache := by
  unfold set_file_position
  split_ifs <;> exact ⟨rfl, rfl, rfl⟩

theorem set_file_position_range (file : file_info_t) (page : Int) (line : ℚ)
    (hn : 1 ≤ file.pages_number) :
    (0 ≤ (set_file_position file page line).page ∧
      (set_file_position file page line).page < file.pages_number) ∧
    (0 ≤ (set_file_position file page line).line ∧
      (set_file_position file page line).line ≤ 1) := by
  unfold set_file_position
  split_ifs with h1 h2 h3 h4 h5 h6 h7 h8 <;>
    refine ⟨⟨?_, ?_⟩, ⟨?_, ?_⟩⟩ <;> simp only <;>
    first
      | omega
      | exact not_lt.1 ‹_›
      | exact not_lt.1 ‹_›
      | norm_num

theorem set_file_scale_range (file : file_info_t) (scale : ℚ) :
    (1 / 10 ≤ (set_file_scale file scale).scale ∧ (set_file_scale file scale).scale ≤ 10) ∧
    (set_file_scale file scale).pages_number = file.pages_number ∧
    (set_file_scale file scale).page = file.page ∧
    (set_file_scale file scale).line = file.line ∧
    (set_file_scale file scale).bias = file.bias ∧
    (set_file_scale file scale).rotation = file.rotation ∧
    (set_file_scale file scale).cache = file.cache ∧
    (set_file_scale file scale).cache_length = file.cache_length := by
  unfold set_file_scale RESIZE_MIN RESIZE_MAX
  split_ifs with h1 h2
  · exact ⟨⟨by norm_num, by norm_num⟩, rfl, rfl, rfl, rfl, rfl, rfl, rfl⟩
  · exact ⟨⟨by norm_num, by norm_num⟩, rfl, rfl, rfl, rfl, rfl, rfl, rfl⟩
  · refine ⟨⟨?_, ?_⟩, rfl, rfl, rfl, rfl, rfl, rfl, rfl⟩
    · simp only; linarith
    · simp only; linarith

theorem set_file_bias_fields (file : file_info_t) (bias : ℚ) :
    (set_file_bias file bias).pages_number = file.pages_number ∧
    (set_file_bias file bias).page = file.page ∧
    (set_file_bias file bias).line = file.line ∧
    (set_file_bias file bias).scale = file.scale ∧
    (set_file_bias file bias).rotation = file.rotation ∧
    (set_file_bias file bias).cache = file.cache ∧
    (set_file_bias file bias).cache_length = file.cache_length := by
  unfold set_file_bias
  split_ifs <;> exact ⟨rfl, rfl, rfl, rfl, rfl, rfl, rfl⟩

theorem scroll_v_body_walk_ok (bk : backend_t) (hbk : ∀ p s r, 0 ≤ (bk p s r).2)
    (N : Int) (w w' : scroll_v_locals)
    (hw : walk_ok w ∧ w.file.pages_number = N) (hb : scroll_v_body bk w = Sum.inl w') :
    walk_ok w' ∧ w'.file.pages_number = N := by
  obtain ⟨⟨⟨hp0, hp1⟩, hh, hc, hs⟩, hN⟩ := hw
  by_cases h1 : w.line < 0
  · by_cases h2 : w.page = 0
    · rw [scroll_v_body_first bk w h1 h2] at hb
      cases hb
    · rw [scroll_v_body_prev bk w h1 h2] at hb
      have hb' := Sum.inl.inj hb
      subst hb'
      have hr := render_page_heights bk hbk w.file hc (w.page - 1)
      refine ⟨⟨⟨?_, ?_⟩, ?_, hr.2, ?_⟩, ?_⟩
      · show 0 ≤ w.page - 1; omega
      · show w.page - 1 < (render_page bk w.file (w.page - 1)).1.pages_number
        rw [render_page_pages_number]; omega
      · show 2 ≤ (render_page bk w.file (w.page - 1)).2.height + CLEARANCE
        have := hr.1
        unfold CLEARANCE; omega
      · show 1 / 10 ≤ (render_page bk w.file (w.page - 1)).1.scale ∧
          (render_page bk w.file (w.page - 1)).1.scale ≤ 10
        rw [render_page_scale]; exact hs
      · show (render_page bk w.file (w.page - 1)).1.pages_number = N
        rw [render_page_pages_number]; exact hN
  · by_cases h2 : w.line < w.height
    · rw [scroll_v_body_inside bk w h1 h2] at hb
      cases hb
    · by_cases h3 : w.page = w.file.pages_number - 1
      · rw [scroll_v_body_last bk w h1 h2 h3] at hb
        cases hb
      · rw [scroll_v_body_next bk w h1 h2 h3] at hb
        have hb' := Sum.inl.inj hb
        subst hb'
        have hr := render_page_heights bk hbk w.file hc (w.page + 1)
        refine ⟨⟨⟨?_, ?_⟩, ?_, hr.2, ?_⟩, ?_⟩
        · show 0 ≤ w.page + 1; omega
        · show w.page + 1 < (render_page bk w.file (w.page + 1)).1.pages_number
          rw [render_page_pages_number]; omega
        · show 2 ≤ (render_page bk w.file (w.page + 1)).2.height + CLEARANCE
          have := hr.1
          unfold CLEARANCE; omega
        · show 1 / 10 ≤ (render_page bk w.file (w.page + 1)).1.scale ∧
            (render_page bk w.file (w.page + 1)).1.scale ≤ 10
          rw [render_page_scale]; exact hs
        · show (render_page bk w.file (w.page + 1)).1.pages_number = N
          rw [render_page_pages_number]; exact hN

theorem scroll_v_body_view_ok (bk : backend_t) (N : Int) (w : scroll_v_locals)
    (r : file_info_t) (hw : walk_ok w ∧ w.file.pages_number = N)
    (hb : scroll_v_body bk w = Sum.inr r) :
    view_ok r ∧ (∀ a ∈ r.cache, 0 ≤ a.height) ∧ r.pages_number = N := by
  obtain ⟨⟨⟨hp0, hp1⟩, hh, hc, hs⟩, hN⟩ := hw
  by_cases h1 : w.line < 0
  · by_cases h2 : w.page = 0
    · rw [scroll_v_body_first bk w h1 h2] at hb
      have hb' := Sum.inr.inj hb
      subst hb'
      refine ⟨⟨⟨le_refl _, ?_⟩, ⟨le_refl _, by norm_num⟩, hs⟩, hc, hN⟩
      show (0 : Int) < w.file.pages_number
      omega
    · rw [scroll_v_body_prev bk w h1 h2] at hb
      cases hb
  · by_cases h2 : w.line < w.height
    · rw [scroll_v_body_inside bk w h1 h2] at hb
      have hb' := Sum.inr.inj hb
      subst hb'
      have hl0 : (0 : ℚ) ≤ (w.line : ℚ) := by exact_mod_cast (not_lt.1 h1)
      have hh1 : (0 : ℚ) < (w.height : ℚ) - 1 := by
        have : (2 : ℚ) ≤ (w.height : ℚ) := by exact_mod_cast hh
        linarith
      have hl1 : (w.line : ℚ) ≤ (w.height : ℚ) - 1 := by
        have : w.line ≤ w.height - 1 := by omega
        have h' : (w.line : ℚ) ≤ ((w.height - 1 : Int) : ℚ) := by exact_mod_cast this
        simpa using h'
      refine ⟨⟨⟨hp0, hp1⟩, ⟨?_, ?_⟩, hs⟩, hc, hN⟩
      · exact div_nonneg hl0 (le_of_lt hh1)
      · exact (div_le_one hh1).2 hl1
    · by_cases h3 : w.page = w.file.pages_number - 1
      · rw [scroll_v_body_last bk w h1 h2 h3] at hb
        have hb' := Sum.inr.inj hb
        subst hb'
        exact ⟨⟨⟨hp0, hp1⟩, ⟨by norm_num, le_refl _⟩, hs⟩, hc, hN⟩
      · rw [scroll_v_body_next bk w h1 h2 h3] at hb
        cases hb

theorem scroll_v_init_walk_ok (bk : backend_t) (hbk : ∀ p s r, 0 ≤ (bk p s r).2)
    (file : file_info_t) (hc : ∀ a ∈ file.cache, 0 ≤ a.height) (hv : view_ok file)
    (step : Int) :
    walk_ok (scroll_v_init bk file step) ∧
      (scroll_v_init bk file step).file.pages_number = file.pages_number := by
  obtain ⟨⟨hp0, hp1⟩, _, hs⟩ := hv
  have hr := render_page_heights bk hbk file hc file.page
  refine ⟨⟨⟨hp0, ?_⟩, ?_, hr.2, ?_⟩, scroll_v_init_pages_number bk file step⟩
  · rw [scroll_v_init_pages_number]; exact hp1
  · show 2 ≤ (render_page bk file file.page).2.height + CLEARANCE
    have := hr.1
    unfold CLEARANCE; omega
  · show 1 / 10 ≤ (render_page bk file file.page).1.scale ∧
      (render_page bk file file.page).1.scale ≤ 10
    rw [render_page_scale]; exact hs

theorem scroll_v_view_ok (bk : backend_t) (hbk : ∀ p s r, 0 ≤ (bk p s r).2)
    (file : file_info_t) (hc : ∀ a ∈ file.cache, 0 ≤ a.height) (hv : view_ok file)
    (step : Int) (fuel : Nat) (r : file_info_t) (hr : scroll_v bk fuel file step = some r) :
    view_ok r ∧ (∀ a ∈ r.cache, 0 ≤ a.height) ∧ r.pages_number = file.pages_number :=
  while_1_inv (scroll_v_body bk)
    (fun w => walk_ok w ∧ w.file.pages_number = file.pages_number)
    (fun r => view_ok r ∧ (∀ a ∈ r.cache, 0 ≤ a.height) ∧ r.pages_number = file.pages_number)
    (fun w w' hw hb => scroll_v_body_walk_ok bk hbk file.pages_number w w' hw hb)
    (fun w r hw hb => scroll_v_body_view_ok bk file.pages_number w r hw hb)
    fuel (scroll_v_init bk file step) r (scroll_v_init_walk_ok bk hbk file hc hv step) hr

theorem scroll_v_returns (bk : backend_t) (file : file_info_t) (step : Int)
    (h0 : 0 ≤ file.page) (h1 : file.page < file.pages_number) :
    ∃ r, scroll_v bk file.pages_number.toNat file step = some r := by
  have hp := scroll_v_init_page bk file step
  have hN := scroll_v_init_pages_number bk file step
  have hfuel : ((file.pages_number.toNat : Nat) : Int) = file.pages_number :=
    Int.toNat_of_nonneg (by omega)
  by_cases hw : (scroll_v_init bk file step).line < 0 ∨
      (scroll_v_init bk file step).line < (scroll_v_init bk file step).height
  · exact (walk_prev bk file.pages_number.toNat _ hw (by rw [hp]; exact h0)).2.2
      (by rw [hp, hfuel]; omega)
  · exact (walk_next bk file.pages_number.toNat _ (by omega) (by rw [hp, hN]; exact h1)).2.2
      (by rw [hp, hN, hfuel]; omega)

/-- The ViewState invariant on numbers (arguments that are not NaN): for a
document with at least one page, a backend whose heights are not
negative and a cache without negative heights, the ViewState predicate
`0 ≤ page < pages_number`, `0 ≤ line ≤ 1`, `0.1 ≤ scale ≤ 10` holds after
`set_file_position` followed by `set_file_scale` whatever the arguments, and
from a state where it holds it holds again after `set_file_position`,
`set_file_scale`, `scroll_h`, `resize` and `scroll_v` for every argument;
`scroll_v` returns (within `pages_number` iterations), keeps `pages_number`
and leaves no negative height in the cache. -/
theorem view_state_invariant (bk : backend_t) (hbk : ∀ p s r, 0 ≤ (bk p s r).2)
    (file : file_info_t) (hn : 1 ≤ file.pages_number)
    (hc : ∀ a ∈ file.cache, 0 ≤ a.height) :
    (∀ (page : Int) (line scale : ℚ),
      view_ok (set_file_scale (set_file_position file page line) scale)) ∧
    (view_ok file →
      (∀ (page : Int) (line : ℚ), view_ok (set_file_position file page line)) ∧
      (∀ scale : ℚ, view_ok (set_file_scale file scale)) ∧
      (∀ step : Int, view_ok (scroll_h file step)) ∧
      (∀ delta : ℚ, view_ok (resize file delta)) ∧
      (∀ step : Int, ∃ r, scroll_v bk file.pages_number.toNat file step = some r ∧
        view_ok r ∧ (∀ a ∈ r.cache, 0 ≤ a.height) ∧ r.pages_number = file.pages_number) ∧
      (∀ (step : Int) (fuel : Nat) (r : file_info_t),
        scroll_v bk fuel file step = some r → view_ok r)) := by
  constructor
  · intro page line scale
    obtain ⟨hs, hN, hp, hl, _⟩ := set_file_scale_range (set_file_position file page line) scale
    obtain ⟨hpos, hline⟩ := set_file_position_range file page line hn
    have hN' := (set_file_position_fields file page line).1
    refine ⟨⟨?_, ?_⟩, ⟨?_, ?_⟩, hs⟩
    · rw [hp]; exact hpos.1
    · rw [hp, hN, hN']; exact hpos.2
    · rw [hl]; exact hline.1
    · rw [hl]; exact hline.2
  · intro hv
    obtain ⟨⟨hp0, hp1⟩, ⟨hl0, hl1⟩, hs⟩ := hv
    refine ⟨?_, ?_, ?_, ?_, ?_, ?_⟩
    · intro page line
      obtain ⟨hpos, hline⟩ := set_file_position_range file page line hn
      obtain ⟨hN, hsc, _⟩ := set_file_position_fields file page line
      refine ⟨⟨hpos.1, ?_⟩, hline, ?_⟩
      · rw [hN]; exact hpos.2
      · rw [hsc]; exact hs
    · intro scale
      obtain ⟨hs', hN, hp, hl, _⟩ := set_file_scale_range file scale
      refine ⟨⟨?_, ?_⟩, ⟨?_, ?_⟩, hs'⟩
      · rw [hp]; exact hp0
      · rw [hp, hN]; exact hp1
      · rw [hl]; exact hl0
      · rw [hl]; exact hl1
    · intro step
      obtain ⟨hN, hp, hl, hsc, _⟩ := set_file_bias_fields file (file.bias + (step : ℚ))
      unfold scroll_h
      refine ⟨⟨?_, ?_⟩, ⟨?_, ?_⟩, ?_⟩
      · rw [hp]; exact hp0
      · rw [hp, hN]; exact hp1
      · rw [hl]; exact hl0
      · rw [hl]; exact hl1
      · rw [hsc]; exact hs
    · intro delta
      obtain ⟨hs', hN', hp', hl', _⟩ := set_file_scale_range file (file.scale + delta)
      obtain ⟨hN, hp, hl, hsc, _⟩ := set_file_bias_fields
        (set_file_scale file (file.scale + delta))
        (file.bias / file.scale * (set_file_scale file (file.scale + delta)).scale)
      unfold resize
      refine ⟨⟨?_, ?_⟩, ⟨?_, ?_⟩, ?_⟩
      · rw [hp, hp']; exact hp0
      · rw [hp, hp', hN, hN']; exact hp1
      · rw [hl, hl']; exact hl0
      · rw [hl, hl']; exact hl1
      · rw [hsc]; exact hs'
    · intro step
      obtain ⟨r, hr⟩ := scroll_v_returns bk file step hp0 hp1
      exact ⟨r, hr, scroll_v_view_ok bk hbk file hc ⟨⟨hp0, hp1⟩, ⟨hl0, hl1⟩, hs⟩ step _ r hr⟩
    · intro step fuel r hr
      exact (scroll_v_view_ok bk hbk file hc ⟨⟨hp0, hp1⟩, ⟨hl0, hl1⟩, hs⟩ step fuel r hr).1

theorem view_state_invariant_witness :
    view_ok (set_file_scale (set_file_position (open_file 3) 7 (5 / 2)) 100) ∧
    view_ok (resize (open_file 3) (-3)) ∧
    ∃ r, scroll_v demo_backend (open_file 3).pages_number.toNat (open_file 3) 900 = some r ∧
      view_ok r := by
  have h := view_state_invariant demo_backend demo_backend_heights (open_file 3)
    (by decide) (by simp [open_file])
  have hv : view_ok (open_file 3) := by
    simp only [view_ok, open_file]
    norm_num
  obtain ⟨_, _, _, h4, h5, _⟩ := h.2 hv
  obtain ⟨r, hr, hok, _⟩ := h5 900
  exact ⟨h.1 7 (5 / 2) 100, h4 (-3), r, hr, hok⟩

/-! ## The line stored by the vertical walk -/

theorem half_scroll_step :
    Int.tdiv (-SCROLL_STEP) 2 = -40 ∧ Int.tdiv SCROLL_STEP 2 = 40 := by
  constructor <;> decide

theorem set_file_bias_eq (file : file_info_t) (b : ℚ) :
    set_file_bias file b = { file with bias := if |b| ≤ 40 then 0 else b } := by
  unfold set_file_bias
  rw [half_scroll_step.1, half_scroll_step.2]
  by_cases h : |b| ≤ 40
  · have h' := abs_le.1 h
    have hc : b ≥ (((-40 : Int)) : ℚ) ∧ b ≤ (((40 : Int)) : ℚ) := by
      constructor
      · push_cast; exact h'.1
      · push_cast; exact h'.2
    rw [if_pos hc, if_pos h]
  · have hc : ¬ (b ≥ (((-40 : Int)) : ℚ) ∧ b ≤ (((40 : Int)) : ℚ)) := by
      rintro ⟨h1, h2⟩
      apply h
      rw [abs_le]
      constructor
      · push_cast at h1; exact h1
      · push_cast at h2; exact h2
    rw [if_neg hc, if_neg h]

/-- C10: `set_file_bias` stores exactly 0 for every bias `b` with `|b| ≤ 40`
(half of `SCROLL_STEP`) and stores `b` itself for every `b` with `|b| > 40`;
`scroll_h` sets the bias to 0 when `|bias + step| ≤ 40` and to `bias + step`
otherwise; neither changes any other field of the file. -/
theorem set_file_bias_snap (file : file_info_t) (b : ℚ) (step : Int) :
    (|b| ≤ 40 → set_file_bias file b = { file with bias := 0 }) ∧
    (40 < |b| → set_file_bias file b = { file with bias := b }) ∧
    (|file.bias + (step : ℚ)| ≤ 40 → scroll_h file step = { file with bias := 0 }) ∧
    (40 < |file.bias + (step : ℚ)| →
      scroll_h file step = { file with bias := file.bias + (step : ℚ) }) := by
  refine ⟨?_, ?_, ?_, ?_⟩
  · intro h
    rw [set_file_bias_eq, if_pos h]
  · intro h
    rw [set_file_bias_eq, if_neg (not_le.2 h)]
  · intro h
    unfold scroll_h
    rw [set_file_bias_eq, if_pos h]
  · intro h
    unfold scroll_h
    rw [set_file_bias_eq, if_neg (not_le.2 h)]

theorem set_file_bias_snap_witness :
    scroll_h { open_file 3 with bias := 80 } (-80) = { open_file 3 with bias := 0 } ∧
    scroll_h { open_file 3 with bias := 80 } 80 = { open_file 3 with bias := 160 } := by
  have h := set_file_bias_snap { open_file 3 with bias := 80 } 0
  constructor
  · have h1 := (h (-80)).2.2.1 (by norm_num)
    exact h1
  · have h2 := (h 80).2.2.2 (by norm_num)
    rw [h2]
    norm_num

theorem set_file_position_float_num (file : file_info_t) (page : Int) (line : ℚ) :
    set_file_position_float (float_t.num line) =
      float_t.num (set_file_position file page line).line := by
  unfold set_file_position_float set_file_position float_gt
  simp only [float_lt, decide_eq_true_eq]
  split_ifs <;> rfl

theorem set_file_scale_float_num (file : file_info_t) (scale : ℚ) :
    set_file_scale_float (float_t.num scale) =
      float_t.num (set_file_scale file scale).scale := by
  unfold set_file_scale_float set_file_scale float_gt
  simp only [float_lt, decide_eq_true_eq]
  split_ifs <;> rfl

/-- C4: for the argument NaN both comparisons of `set_file_position` and of
`set_file_scale` are false, so NaN itself is stored in `line` and in `scale`,
and the stored values fail the tests `0 <= line <= 1` and
`0.1 <= scale <= 10`: the ViewState predicate does not hold after the setters
for every argument. -/
theorem setters_store_nan :
    set_file_position_float float_t.nan = float_t.nan ∧
    set_file_scale_float float_t.nan = float_t.nan ∧
    float_in_range 0 1 (set_file_position_float float_t.nan) = false ∧
    float_in_range (1 / 10) 10 (set_file_scale_float float_t.nan) = false := by
  refine ⟨rfl, rfl, rfl, rfl⟩

end Pv
